import Mathlib

/-!
Verification development for the rbxfetch data-acquisition pipeline.

The definitions below are a shallow embedding of the Go sources
(`url.go`, `zip.go`, `iconscan.go`, the client dispatcher and the file
filter).  Go strings are modelled as `List Char` (or `List Nat` of byte
values where the code works on raw bytes), machine integers as `Nat`,
fallible operations as `Except`/`Option`, and the filesystem as a map
from paths to file contents.  Stateful filters become explicit state
records with pure transition functions.
-/

/-- Errors flowing through the pipeline.  `eof` models `io.EOF`, `closed`
models the sentinel `iofl.Closed` stored by every filter after a
successful `Close`, `msg` models errors built from a message string and
`code` stands for otherwise-unstructured I/O or transport errors. -/
inductive GErr where
  | eof
  | closed
  | msg (s : String)
  | code (n : Nat)
deriving DecidableEq, Repr

/-- Cache modes of the client (`CacheNone`, `CacheTemp`, `CachePerm`,
`CacheCustom` from the Go source). -/
inductive CacheMode where
  | CacheNone
  | CacheTemp
  | CachePerm
  | CacheCustom
deriving DecidableEq, Repr

/-! ### Identifier substitution (`expandGUID`, built on Go's `os.Expand`) -/

/-- Go `os.isShellSpecialVar`: the one-character special shell variables. -/
def isShellSpecialVar (c : Char) : Bool :=
  c = '*' || c = '#' || c = '$' || c = '@' || c = '!' || c = '?' || c = '-' ||
  ('0' ≤ c && c ≤ '9')

/-- Go `os.isAlphaNum`. -/
def isAlphaNum (c : Char) : Bool :=
  c = '_' || ('0' ≤ c && c ≤ '9') || ('a' ≤ c && c ≤ 'z') || ('A' ≤ c && c ≤ 'Z')

/-- Opening brace character, written via its code point. -/
def braceL : Char := Char.ofNat 123

/-- Closing brace character, written via its code point. -/
def braceR : Char := Char.ofNat 125

/-- Index of the first closing brace in a list, if any (the scan loop inside
Go `os.getShellName`'s brace case). -/
def braceIdx : List Char → Option Nat
  | [] => none
  | c :: rest =>
    if c = braceR then some 0
    else
      match braceIdx rest with
      | some k => some (k + 1)
      | none => none

/-- Go `os.getShellName`, over the characters that follow a dollar sign.
Returns the variable name and the number of characters consumed. -/
def getShellName (s : List Char) : List Char × Nat :=
  match s with
  | [] => ([], 0)
  | c :: rest =>
    if c = braceL then
      match rest with
      | a :: b :: _ =>
        if isShellSpecialVar a && b = braceR then ([a], 3)
        else
          match braceIdx rest with
          | none => ([], 1)
          | some k => if k = 0 then ([], 2) else (rest.take k, k + 2)
      | _ =>
        match braceIdx rest with
        | none => ([], 1)
        | some k => if k = 0 then ([], 2) else (rest.take k, k + 2)
    else if isShellSpecialVar c then ([c], 1)
    else
      let name := (c :: rest).takeWhile isAlphaNum
      (name, name.length)

/-- ASCII lower-casing of one character (what `strings.ToLower` does on the
ASCII names that can possibly compare equal to "guid"). -/
def asciiLower (c : Char) : Char :=
  if 'A' ≤ c ∧ c ≤ 'Z' then Char.ofNat (c.toNat + 32) else c

/-- The mapping function passed to `os.Expand` inside `expandGUID`: a token
whose lower-casing is "guid" becomes the build identifier, every other
token becomes the empty string. -/
def guidMapping (guid name : List Char) : List Char :=
  if name.map asciiLower = ("guid").toList then guid else []

/-- The loop of Go `os.Expand`, fuelled so that it is structurally
recursive (the fuel is an upper bound on the length of the input).
The three match arms are Go's three cases: a name and its width, an
invalid-syntax width to be eaten, and a bare dollar sign left alone. -/
def expandAux (guid : List Char) : Nat → List Char → List Char
  | 0, _ => []
  | _ + 1, [] => []
  | fuel + 1, c :: rest =>
    if c = '$' ∧ rest ≠ [] then
      match getShellName rest with
      | ([], 0) => '$' :: expandAux guid fuel rest
      | ([], w + 1) => expandAux guid fuel (rest.drop (w + 1))
      | (a :: nm, w) => guidMapping guid (a :: nm) ++ expandAux guid fuel (rest.drop w)
    else c :: expandAux guid fuel rest

/-- `os.Expand` specialised to the guid mapping, over character lists. -/
def expandChars (guid s : List Char) : List Char :=
  expandAux guid s.length s

/-- Go `expandGUID` from `url.go`: substitute the build identifier into a
templated address. -/
def expandGUID (s guid : String) : String :=
  ⟨expandChars guid.toList s.toList⟩

/-- A character after a dollar sign that `os.Expand` cannot interpret at
all: not an opening brace, not a special variable, not alphanumeric.  Such
a dollar sign is left untouched by the expansion. -/
def stuckChar (c : Char) : Bool :=
  !(c = braceL) && !(isShellSpecialVar c) && !(isAlphaNum c)

/-- A string is inert when every dollar sign in it is either at the very
end or followed by a character `os.Expand` cannot interpret; expansion is
the identity on inert strings. -/
def inert : List Char → Bool
  | [] => true
  | c :: rest =>
    if c = '$' then
      match rest with
      | [] => true
      | d :: _ => stuckChar d && inert rest
    else inert rest

/-- A string that avoids the placeholder marker entirely. -/
def noDollar (l : List Char) : Bool :=
  l.all fun c => c != '$'

/-! ### Cache keys (`url.PathEscape` over the bytes of host+path) -/

/-- Go `url.shouldEscape` with mode `encodePathSegment` (the mode used by
`url.PathEscape`), over byte values. -/
def shouldEscape (c : Nat) : Bool :=
  if (65 ≤ c ∧ c ≤ 90) ∨ (97 ≤ c ∧ c ≤ 122) ∨ (48 ≤ c ∧ c ≤ 57) then false
  else if c = 45 ∨ c = 95 ∨ c = 46 ∨ c = 126 then false
  else if c = 36 ∨ c = 38 ∨ c = 43 ∨ c = 44 ∨ c = 47 ∨ c = 58 ∨ c = 59 ∨
          c = 61 ∨ c = 63 ∨ c = 64 then
    decide (c = 47 ∨ c = 59 ∨ c = 44 ∨ c = 63)
  else true

/-- Go's `upperhex` digit table as a function: the byte of the upper-case
hexadecimal digit for a value below 16. -/
def upperhex (n : Nat) : Nat :=
  if n < 10 then 48 + n else 55 + n

/-- Percent-escaping of a single byte as done by `url.escape`. -/
def escapeByte (c : Nat) : List Nat :=
  if shouldEscape c then [37, upperhex (c / 16), upperhex (c % 16)] else [c]

/-- Go `url.PathEscape` over a byte string. -/
def pathEscape : List Nat → List Nat
  | [] => []
  | c :: rest => escapeByte c ++ pathEscape rest

/-- The cache key computed in `FilterURL.fetch`:
`url.PathEscape(loc.Host + loc.Path)` (the file name inside the cache
directory; scheme and query string do not enter). -/
def cacheKey (host path : List Nat) : List Nat :=
  pathEscape (host ++ path)

/-! ### Filesystem model and `FilterURL.fetch` -/

/-- The filesystem: a map from paths to file contents. -/
def FS : Type := String → Option (List Nat)

/-- Point update of the filesystem (`none` removes the file). -/
def fsUpdate (fs : FS) (p : String) (v : Option (List Nat)) : FS :=
  fun q => if q = p then v else fs q

/-- The environment of one `FilterURL.fetch` invocation: the outcome of
each external step it may perform.  `getResult` is the outcome of the
HTTP GET: either a transport/status error, or the body bytes together
with an optional error that interrupts reading the body mid-way (which
makes the `io.Copy` to the temp file fail after partial bytes). -/
structure FetchEnv where
  cacheDirOk : Option GErr
  cacheKey : String
  tempName : String
  tempCreateOk : Bool
  getResult : Except GErr (List Nat × Option GErr)
  syncErr : Option GErr
  renameOk : Bool

/-- What `fetch` hands back as the `io.ReadCloser`: either an opened cache
file (at some path, with its content) or the response body streamed
directly (with its bytes and the optional mid-stream error). -/
inductive FetchRC where
  | cached (path : String) (content : List Nat)
  | direct (content : List Nat) (tailErr : Option GErr)
deriving DecidableEq, Repr

/-- The `direct:` label of `FilterURL.fetch`: return the response body
directly, performing no disk I/O. -/
def directFetch (env : FetchEnv) (fs : FS) : Except GErr FetchRC × FS :=
  match env.getResult with
  | .error e => (.error e, fs)
  | .ok (b, m) => (.ok (.direct b m), fs)

/-- Go `FilterURL.fetch` from `url.go`.  Control flow mirrors the source:
a cache mode other than none creates the cache directory, tries the cache
file, otherwise creates a temp file, downloads into it, syncs, renames it
into place and re-opens it (the `goto tryCache`); failure of temp-file
creation falls through to the `direct:` label; failure of the rename
keeps the temp file as the cache result.  The deterministic model inlines
the always-successful re-open after the download. -/
def FilterURL.fetch (mode : CacheMode) (env : FetchEnv) (fs : FS) :
    Except GErr FetchRC × FS :=
  match mode with
  | .CacheNone => directFetch env fs
  | _ =>
    match env.cacheDirOk with
    | some e => (.error e, fs)
    | none =>
      match fs env.cacheKey with
      | some content => (.ok (.cached env.cacheKey content), fs)
      | none =>
        if env.tempCreateOk then
          -- ioutil.TempFile created an empty file at tempName
          let fs1 := fsUpdate fs env.tempName (some [])
          match env.getResult with
          | .error e => (.error e, fsUpdate fs1 env.tempName none)
          | .ok (body, midErr) =>
            match midErr with
            | some e =>
              -- io.Copy wrote partial bytes, then failed; temp removed
              (.error e, fsUpdate (fsUpdate fs1 env.tempName (some body)) env.tempName none)
            | none =>
              let fs2 := fsUpdate fs1 env.tempName (some body)
              match env.syncErr with
              | some e => (.error e, fsUpdate fs2 env.tempName none)
              | none =>
                if env.renameOk then
                  let fs3 := fsUpdate (fsUpdate fs2 env.tempName none) env.cacheKey (some body)
                  (.ok (.cached env.cacheKey body), fs3)
                else
                  -- rename failed: the temp file is the cache result
                  (.ok (.cached env.tempName body), fs2)
        else
          directFetch env fs

/-- Content carried by a fetch result stream. -/
def FetchRC.content : FetchRC → List Nat
  | .cached _ c => c
  | .direct b _ => b

/-- State of a `FilterURL`: its configuration, the stream obtained by a
previous fetch (if any) and the sticky error field. -/
structure URLState where
  mode : CacheMode
  env : FetchEnv
  r : Option FetchRC
  err : Option GErr

/-- Go `FilterURL.Read`: a stored error is returned as-is; the first real
read performs the fetch, stores a failure permanently, and otherwise
reads from the obtained stream (modelled as reading it whole). -/
def FilterURL.read (st : URLState) (fs : FS) :
    Except GErr (List Nat) × URLState × FS :=
  match st.err with
  | some e => (.error e, st, fs)
  | none =>
    match st.r with
    | some rc => (.ok rc.content, st, fs)
    | none =>
      match FilterURL.fetch st.mode st.env fs with
      | (.error e, fs') => (.error e, ⟨st.mode, st.env, none, some e⟩, fs')
      | (.ok rc, fs') => (.ok rc.content, ⟨st.mode, st.env, some rc, none⟩, fs')

/-- Go `FilterURL.Close` acting on the sticky error field.  `rCloseRes` is
what closing the underlying stream returns.  The result is the pair
(returned error, new sticky error). -/
def FilterURL.close (err rCloseRes : Option GErr) : Option GErr × Option GErr :=
  match err with
  | some e => (some e, some e)
  | none =>
    match rCloseRes with
    | none => (none, some GErr.closed)
    | some e => (some e, some e)

/-! ### Image-sheet scan (`iconscan.go`) -/

/-- One stretch of the upstream stream as seen by `FilterIconScan.scan`:
either bytes containing no PNG signature (skipped by `readBytes`), or an
embedded PNG of the given width and height whose encoded byte
representation is `enc` (what the `io.TeeReader` copies into `f.buf`
while `png.Decode` inspects the dimensions). -/
inductive ScanItem where
  | junk (bytes : List Nat)
  | img (w h : Nat) (enc : List Nat)
deriving DecidableEq, Repr

/-- The loop of Go `FilterIconScan.scan`.  `buf` is `f.buf` (reset and
refilled at every PNG header), `largest` is the selected candidate as
(candidate index, width).  On end of stream the scan succeeds iff some
candidate qualified, returning the buffer contents and the selection;
otherwise `readBytes` surfaces `io.EOF`. -/
def scanAux (size : Nat) :
    List ScanItem → Nat → List Nat → Option (Nat × Nat) →
      Except GErr (List Nat × Nat × Nat)
  | [], _, buf, largest =>
    match largest with
    | some (i, w) => .ok (buf, i, w)
    | none => .error GErr.eof
  | ScanItem.junk _ :: rest, idx, buf, largest => scanAux size rest idx buf largest
  | ScanItem.img w h enc :: rest, idx, _, largest =>
    let largest' :=
      if h = size ∧ w % size = 0 then
        match largest with
        | none => some (idx, w)
        | some (i0, w0) => if w > w0 then some (idx, w) else some (i0, w0)
      else largest
    scanAux size rest (idx + 1) enc largest'

/-- The qualifying candidates of a stream, with their candidate indices:
images whose height equals the target size and whose width is an integer
multiple of it. -/
def cands (size : Nat) : List ScanItem → Nat → List (Nat × Nat)
  | [], _ => []
  | ScanItem.junk _ :: rest, idx => cands size rest idx
  | ScanItem.img w h _ :: rest, idx =>
    (if h = size ∧ w % size = 0 then [(idx, w)] else []) ++ cands size rest (idx + 1)

/-- State of a `FilterIconScan`: target size, the remaining upstream
stream, whether the upstream was closed (the scan closes it), the buffer
and the sticky error field. -/
structure IconScanState where
  size : Nat
  upstream : List ScanItem
  upClosed : Bool
  buf : List Nat
  err : Option GErr

/-- Go `FilterIconScan.Read`: a stored error is returned as-is; with an
empty buffer the scan is (re-)run and its failure stored permanently.
Reading the already-closed upstream returns the sentinel stored by the
upstream filter's own Close (`iofl.Closed`, see `FilterZip.Read` and
`FilterURL.Read`), which is not `io.EOF` and no candidate has been found
yet, so the re-run scan fails with that sentinel.  A successful read
drains the buffer. -/
def FilterIconScan.read (st : IconScanState) :
    Except GErr (List Nat) × IconScanState :=
  match st.err with
  | some e => (.error e, st)
  | none =>
    if st.buf = [] then
      if st.upClosed then
        (.error GErr.closed, ⟨st.size, st.upstream, true, st.buf, some GErr.closed⟩)
      else
        match scanAux st.size st.upstream 0 [] none with
        | .error e => (.error e, ⟨st.size, [], true, [], some e⟩)
        | .ok (bts, _, _) => (.ok bts, ⟨st.size, [], true, [], none⟩)
    else (.ok st.buf, ⟨st.size, st.upstream, st.upClosed, [], st.err⟩)

/-- Go `FilterIconScan.Close` acting on the sticky error field, like
`FilterURL.close`. -/
def FilterIconScan.close (err rCloseRes : Option GErr) : Option GErr × Option GErr :=
  match err with
  | some e => (some e, some e)
  | none =>
    match rCloseRes with
    | none => (none, some GErr.closed)
    | some e => (some e, some e)

/-! ### Archive member extraction (`zip.go`) -/

/-- The member-directory scan loop inside Go `unzip`: first entry whose
name equals the requested file name exactly. -/
def findZipFile (filename : String) : List (String × List Nat) → Option (String × List Nat)
  | [] => none
  | zf :: rest => if zf.1 = filename then some zf else findZipFile filename rest

/-- Go `unzip`, over the parsed member directory of the archive: extract
the first exact-name match, or fail with the missing-member error
(`fmt.Errorf("%q not in archive", filename)`). -/
def unzip (files : List (String × List Nat)) (filename : String) :
    Except GErr (List Nat) :=
  match findZipFile filename files with
  | none => .error (GErr.msg ("\"" ++ filename ++ "\" not in archive"))
  | some zf => .ok zf.2

/-- State of a `FilterZip`: the requested member name, the parsed archive
directory obtained from the upstream stream, the opened member stream (if
any) and the sticky error field. -/
structure ZipState where
  file : String
  files : List (String × List Nat)
  zr : Option (List Nat)
  err : Option GErr

/-- Go `FilterZip.Read`: a stored error is returned as-is; the first read
runs `unzip`, storing its failure permanently, and otherwise reads the
member stream (modelled as reading it whole). -/
def FilterZip.read (st : ZipState) : Except GErr (List Nat) × ZipState :=
  match st.err with
  | some e => (.error e, st)
  | none =>
    match st.zr with
    | some content => (.ok content, ⟨st.file, st.files, some [], st.err⟩)
    | none =>
      match unzip st.files st.file with
      | .error e => (.error e, ⟨st.file, st.files, none, some e⟩)
      | .ok content => (.ok content, ⟨st.file, st.files, some [], none⟩)

/-- Go `FilterZip.Close` acting on the sticky error field.  When the
member stream is open the wrapped closer (member stream then container)
is closed, otherwise the raw source; either way a nil close result stores
the `iofl.Closed` sentinel and a failure is stored and returned. -/
def FilterZip.close (err : Option GErr) (zrOpen : Bool) (zrRes srcRes : Option GErr) :
    Option GErr × Option GErr :=
  match err with
  | some e => (some e, some e)
  | none =>
    if zrOpen then
      match zrRes with
      | none => (none, some GErr.closed)
      | some e => (some e, some e)
    else
      match srcRes with
      | none => (none, some GErr.closed)
      | some e => (some e, some e)

/-! ### Local file source (`file.go`) -/

/-- State of a `FilterFile`: templated path, the identifier, the opened
file content (if any) and the sticky error field. -/
structure FileState where
  path : String
  guid : String
  r : Option (List Nat)
  err : Option GErr

/-- Go `FilterFile.Read`: a stored error is returned as-is; the first read
opens the identifier-substituted path, storing the open failure
permanently. -/
def FilterFile.read (st : FileState) (fs : FS) :
    Except GErr (List Nat) × FileState :=
  match st.err with
  | some e => (.error e, st)
  | none =>
    match st.r with
    | some content => (.ok content, ⟨st.path, st.guid, some [], st.err⟩)
    | none =>
      match fs (expandGUID st.path st.guid) with
      | none =>
        (.error (GErr.msg ("open " ++ expandGUID st.path st.guid)),
          ⟨st.path, st.guid, none, some (GErr.msg ("open " ++ expandGUID st.path st.guid))⟩)
      | some content => (.ok content, ⟨st.path, st.guid, some [], none⟩)

/-- Go `FilterFile.Close` acting on the sticky error field, like
`FilterURL.close`. -/
def FilterFile.close (err rCloseRes : Option GErr) : Option GErr × Option GErr :=
  match err with
  | some e => (some e, some e)
  | none =>
    match rCloseRes with
    | none => (none, some GErr.closed)
    | some e => (some e, some e)

/-! ### Client dispatcher: the Live method -/

/-- Go `Client.Live`: resolve and read every configured chain in order.
`resolveErr` is the outcome of `client.resolve` for a chain, `decodeRes`
the outcome of JSON-decoding the chain's content.  Any failure aborts the
whole loop with that failure and no aggregated result; otherwise the
decoded identifiers are collected in chain order. -/
def Client.Live (chains : List String) (resolveErr : String → Option GErr)
    (decodeRes : String → Except GErr String) : Except GErr (List String) :=
  match chains with
  | [] => .ok []
  | ch :: rest =>
    match resolveErr ch with
    | some e => .error e
    | none =>
      match decodeRes ch with
      | .error e => .error e
      | .ok g =>
        match Client.Live rest resolveErr decodeRes with
        | .error e => .error e
        | .ok gs => .ok (g :: gs)

/-! ### Concrete instances used in witnesses and counterexamples -/

/-- The empty filesystem. -/
def fs0 : FS := fun _ => none

/-- Fetch environment whose HTTP GET fails outright. -/
def fetchEnvGetFails : FetchEnv :=
  ⟨none, "k", "t", true, .error (GErr.code 1), none, true⟩

/-- Fetch environment whose cache-directory creation fails. -/
def fetchEnvDirFails : FetchEnv :=
  ⟨some (GErr.code 2), "k", "t", true, .ok ([5], none), none, true⟩

/-- Fetch environment whose body read fails mid-way, failing the write of
the body to the temporary file. -/
def fetchEnvWriteFails : FetchEnv :=
  ⟨none, "k", "t", true, .ok ([5], some (GErr.code 3)), none, true⟩

/-- Fetch environment whose temp-file sync fails. -/
def fetchEnvSyncFails : FetchEnv :=
  ⟨none, "k", "t", true, .ok ([6], none), some (GErr.code 4), true⟩

/-- Fetch environment whose temp-file creation fails. -/
def fetchEnvTempFails : FetchEnv :=
  ⟨none, "k", "t", false, .ok ([3], none), none, true⟩

/-- Fetch environment whose rename into the cache-key path fails. -/
def fetchEnvRenameFails : FetchEnv :=
  ⟨none, "k", "t", true, .ok ([1, 2], none), none, false⟩

/-! ## Theorems -/

/-! ### Lemmas about identifier substitution -/

theorem expandAux_nil (guid : List Char) (fuel : Nat) :
    expandAux guid fuel [] = [] := by
  cases fuel <;> rfl

theorem expandAux_cons_ne (guid : List Char) (fuel : Nat) (d : Char) (t : List Char)
    (hd : ¬ d = '$') :
    expandAux guid (fuel + 1) (d :: t) = d :: expandAux guid fuel t := by
  simp [expandAux, hd]

theorem expandAux_dollar (guid : List Char) (f : Nat) (d : Char) (t : List Char) :
    expandAux guid (f + 1) ('$' :: d :: t) =
      (match getShellName (d :: t) with
      | ([], 0) => '$' :: expandAux guid f (d :: t)
      | ([], w + 1) => expandAux guid f ((d :: t).drop (w + 1))
      | (a :: nm, w) => guidMapping guid (a :: nm) ++ expandAux guid f ((d :: t).drop w)) := by
  simp [expandAux]

theorem getShellName_stuck (d : Char) (t : List Char) (h : stuckChar d = true) :
    getShellName (d :: t) = ([], 0) := by
  simp only [stuckChar, Bool.and_eq_true, Bool.not_eq_true'] at h
  obtain ⟨⟨h1, h2⟩, h3⟩ := h
  have h1' : ¬ d = braceL := by simpa using h1
  simp [getShellName, h1', h2, h3, List.takeWhile_cons]

theorem getShellName_brace_ne (t : List Char) :
    (getShellName (braceL :: t)).2 ≠ 0 := by
  match t with
  | [] => simp [getShellName, braceIdx]
  | [a] =>
    by_cases ha : a = braceR <;> simp [getShellName, braceIdx, ha]
  | a :: b :: t' =>
    simp only [getShellName, if_pos rfl]
    by_cases hs : (isShellSpecialVar a && decide (b = braceR)) = true
    · simp [hs]
    · simp only [hs]
      cases hb : braceIdx (a :: b :: t') with
      | none => simp [hb]
      | some k =>
        by_cases hk : k = 0 <;> simp [hb, hk]

theorem getShellName_zero (s : List Char) (h : getShellName s = ([], 0)) :
    s = [] ∨ ∃ d t, s = d :: t ∧ stuckChar d = true := by
  match s with
  | [] => exact Or.inl rfl
  | d :: t =>
    right
    refine ⟨d, t, rfl, ?_⟩
    by_cases h1 : d = braceL
    · exfalso
      subst h1
      exact getShellName_brace_ne t (by rw [h])
    · by_cases h2 : isShellSpecialVar d = true
      · exfalso; simp [getShellName, h1, h2] at h
      · by_cases h3 : isAlphaNum d = true
        · exfalso
          simp [getShellName, h1, h2, List.takeWhile_cons, h3] at h
        · simp [stuckChar, h1, Bool.not_eq_true] at h2 h3 ⊢
          simp [h2, h3]

theorem inert_cons_ne (c : Char) (t : List Char) (h : ¬ c = '$') :
    inert (c :: t) = inert t := by
  simp [inert, h]

theorem inert_dollar_cons (d : Char) (t : List Char) :
    inert ('$' :: d :: t) = (stuckChar d && inert (d :: t)) := by
  simp [inert]

theorem inert_append (a b : List Char) (ha : noDollar a = true) (hb : inert b = true) :
    inert (a ++ b) = true := by
  induction a with
  | nil => simpa using hb
  | cons c a' ih =>
    simp only [noDollar, List.all_cons, Bool.and_eq_true] at ha
    have hc : ¬ c = '$' := by simpa using ha.1
    have hrec := ih (by simpa [noDollar] using ha.2)
    simpa [List.cons_append, inert_cons_ne c _ hc] using hrec

theorem stuck_ne_dollar (d : Char) (h : stuckChar d = true) : ¬ d = '$' := by
  intro hd
  subst hd
  simp [stuckChar, isShellSpecialVar] at h

theorem expandAux_inert (guid : List Char) :
    ∀ (fuel : Nat) (s : List Char), s.length ≤ fuel → inert s = true →
      expandAux guid fuel s = s := by
  intro fuel
  induction fuel with
  | zero =>
    intro s hs _
    have : s = [] := by cases s <;> simp_all
    subst this; rfl
  | succ f ih =>
    intro s hs hin
    match s with
    | [] => rfl
    | c :: rest =>
      by_cases hc : c = '$'
      · subst hc
        match rest with
        | [] =>
          simp [expandAux, expandAux_nil]
        | d :: t =>
          rw [inert_dollar_cons] at hin
          simp only [Bool.and_eq_true] at hin
          have hgn := getShellName_stuck d t hin.1
          have hlen : (d :: t).length ≤ f := by simpa using hs
          rw [expandAux_dollar, hgn]
          rw [ih _ hlen hin.2]
      · have hrest : inert rest = true := by rwa [inert_cons_ne c rest hc] at hin
        rw [expandAux_cons_ne guid f c rest hc, ih rest (by simpa using hs) hrest]

theorem inert_expandAux (guid : List Char) (hg : noDollar guid = true) :
    ∀ (fuel : Nat) (s : List Char), s.length ≤ fuel →
      inert (expandAux guid fuel s) = true := by
  intro fuel
  induction fuel with
  | zero =>
    intro s _
    cases fuelZero : expandAux guid 0 s
    · simp [inert]
    · simp [expandAux] at fuelZero
  | succ f ih =>
    intro s hs
    match s with
    | [] => simp [expandAux_nil, inert]
    | c :: rest =>
      by_cases hc : c = '$'
      · subst hc
        match rest with
        | [] =>
          simp [expandAux, expandAux_nil, inert]
        | d :: t =>
          have hlen : (d :: t).length ≤ f := by simpa using hs
          rcases hgn : getShellName (d :: t) with ⟨name, w⟩
          match name, w with
          | [], 0 =>
            have hstuck : stuckChar d = true := by
              rcases getShellName_zero _ hgn with h | ⟨d', t', heq, hst⟩
              · simp at h
              · cases heq; exact hst
            have hd : ¬ d = '$' := stuck_ne_dollar d hstuck
            obtain ⟨f', rfl⟩ : ∃ f', f = f' + 1 := by
              cases f
              · simp at hlen
              · exact ⟨_, rfl⟩
            have hres := ih (d :: t) hlen
            rw [expandAux_cons_ne guid f' d t hd] at hres
            rw [expandAux_dollar, hgn]
            rw [expandAux_cons_ne guid f' d t hd]
            rw [inert_dollar_cons]
            simp [hstuck, hres]
          | [], w + 1 =>
            have hdlen : ((d :: t).drop (w + 1)).length ≤ f := by
              have h1 : ((d :: t).drop (w + 1)).length ≤ (d :: t).length := by
                simp [List.length_drop]; omega
              omega
            have hres := ih _ hdlen
            rw [expandAux_dollar, hgn]
            exact hres
          | a :: nm, w =>
            have hdlen : ((d :: t).drop w).length ≤ f := by
              have h1 : ((d :: t).drop w).length ≤ (d :: t).length := by
                simp [List.length_drop]
              omega
            have hres := ih _ hdlen
            rw [expandAux_dollar, hgn]
            apply inert_append
            · by_cases hm : (a :: nm).map asciiLower = ("guid").toList
              · rw [guidMapping, if_pos hm]; exact hg
              · rw [guidMapping, if_neg hm]; rfl
            · exact hres
      · rw [expandAux_cons_ne guid f c rest hc]
        rw [inert_cons_ne _ _ hc]
        exact ih rest (by simpa using hs)

/-! ### Claim C5: idempotence of identifier substitution -/

/-- Claim C5, counterexample: substitution by `expandGUID` is not
idempotent for every identifier.  With template `$GUID` and identifier
`$a`, one substitution yields `$a` but substituting again expands the
`$a` token (an unrecognized token, replaced by the empty string), so the
results differ. -/
theorem expandGUID_not_idempotent_cex :
    expandGUID ("$GUID") ("$a") = ("$a") ∧
    expandGUID (expandGUID ("$GUID") ("$a")) ("$a") = ("") ∧
    ("$a" : String) ≠ ("") := by
  exact ⟨by decide, by decide, by decide⟩

/-- Claim C5 (corrected): identifier substitution is idempotent for every
templated address string provided the build identifier itself contains no
placeholder marker `$` — applying the substitution twice with such an
identifier yields the same string as applying it once. -/
theorem expandGUID_idem_no_marker (s guid : String) (h : noDollar guid.toList = true) :
    expandGUID (expandGUID s guid) guid = expandGUID s guid := by
  unfold expandGUID expandChars
  have hdata : (String.mk (expandAux guid.toList s.toList.length s.toList)).toList
      = expandAux guid.toList s.toList.length s.toList := rfl
  rw [hdata]
  have hin := inert_expandAux guid.toList h s.toList.length s.toList le_rfl
  have := expandAux_inert guid.toList
    (expandAux guid.toList s.toList.length s.toList).length
    (expandAux guid.toList s.toList.length s.toList) le_rfl hin
  rw [this]

/-- Witness for `expandGUID_idem_no_marker` at a concrete template and a
marker-free identifier. -/
theorem expandGUID_idem_no_marker_witness :
    noDollar (("version-abc123") : String).toList = true ∧
    expandGUID (expandGUID ("setup/$GUID-API-Dump.json") ("version-abc123")) ("version-abc123")
      = expandGUID ("setup/$GUID-API-Dump.json") ("version-abc123") :=
  ⟨by decide, expandGUID_idem_no_marker ("setup/$GUID-API-Dump.json") ("version-abc123") (by decide)⟩

/-! ### Lemmas about cache keys -/

theorem escapeByte_ne_nil (c : Nat) : escapeByte c ≠ [] := by
  unfold escapeByte
  split <;> simp

theorem upperhex_inj (a b : Nat) (ha : a < 16) (hb : b < 16)
    (h : upperhex a = upperhex b) : a = b := by
  unfold upperhex at h
  split_ifs at h <;> omega

theorem shouldEscape_percent : shouldEscape 37 = true := by decide

theorem pathEscape_inj :
    ∀ (a b : List Nat), (∀ x ∈ a, x < 256) → (∀ x ∈ b, x < 256) →
      pathEscape a = pathEscape b → a = b := by
  intro a
  induction a with
  | nil =>
    intro b _ _ h
    cases b with
    | nil => rfl
    | cons d b' =>
      exfalso
      simp only [pathEscape] at h
      cases hd : escapeByte d with
      | nil => exact escapeByte_ne_nil d hd
      | cons x xs => rw [hd] at h; simp at h
  | cons c a' ih =>
    intro b hba hbb h
    cases b with
    | nil =>
      exfalso
      simp only [pathEscape] at h
      cases hc : escapeByte c with
      | nil => exact escapeByte_ne_nil c hc
      | cons x xs => rw [hc] at h; simp at h
    | cons d b' =>
      simp only [pathEscape] at h
      have hc256 : c < 256 := hba c (by simp)
      have hd256 : d < 256 := hbb d (by simp)
      by_cases hc : shouldEscape c = true <;> by_cases hd : shouldEscape d = true
      · rw [escapeByte, if_pos hc, escapeByte, if_pos hd] at h
        simp only [List.cons_append, List.nil_append, List.cons.injEq] at h
        obtain ⟨-, h1, h2, h3⟩ := h
        have e1 : c / 16 = d / 16 :=
          upperhex_inj _ _ (by omega) (by omega) h1
        have e2 : c % 16 = d % 16 :=
          upperhex_inj _ _ (by omega) (by omega) h2
        have : c = d := by omega
        subst this
        rw [ih b' (fun x hx => hba x (by simp [hx])) (fun x hx => hbb x (by simp [hx])) h3]
      · exfalso
        rw [escapeByte, if_pos hc, escapeByte, if_neg hd] at h
        simp only [List.cons_append, List.nil_append, List.cons.injEq] at h
        have : shouldEscape d = true := by
          rw [← h.1]; exact shouldEscape_percent
        exact hd this
      · exfalso
        rw [escapeByte, if_neg hc, escapeByte, if_pos hd] at h
        simp only [List.cons_append, List.nil_append, List.cons.injEq] at h
        have : shouldEscape c = true := by
          rw [h.1]; exact shouldEscape_percent
        exact hc this
      · rw [escapeByte, if_neg hc, escapeByte, if_neg hd] at h
        simp only [List.cons_append, List.nil_append, List.cons.injEq] at h
        obtain ⟨rfl, h2⟩ := h
        rw [ih b' (fun x hx => hba x (by simp [hx])) (fun x hx => hbb x (by simp [hx])) h2]

theorem hostPath_append_inj :
    ∀ (host1 path1 host2 path2 : List Nat),
      47 ∉ host1 → 47 ∉ host2 →
      (path1 = [] ∨ path1.head? = some 47) → (path2 = [] ∨ path2.head? = some 47) →
      host1 ++ path1 = host2 ++ path2 → host1 = host2 ∧ path1 = path2 := by
  intro host1
  induction host1 with
  | nil =>
    intro path1 host2 path2 _ hh2 hp1 _ heq
    cases host2 with
    | nil => exact ⟨rfl, by simpa using heq⟩
    | cons d h2' =>
      exfalso
      simp only [List.nil_append, List.cons_append] at heq
      rcases hp1 with rfl | hp1
      · simp at heq
      · rw [heq] at hp1
        simp only [List.head?_cons, Option.some.injEq] at hp1
        exact hh2 (by simp [hp1])
  | cons c h1' ih =>
    intro path1 host2 path2 hh1 hh2 hp1 hp2 heq
    cases host2 with
    | nil =>
      exfalso
      simp only [List.cons_append, List.nil_append] at heq
      rcases hp2 with rfl | hp2
      · simp at heq
      · rw [← heq] at hp2
        simp only [List.head?_cons, Option.some.injEq] at hp2
        exact hh1 (by simp [hp2])
    | cons d h2' =>
      simp only [List.cons_append, List.cons.injEq] at heq
      obtain ⟨rfl, heq'⟩ := heq
      have hrec := ih path1 h2' path2
        (fun hm => hh1 (List.mem_cons_of_mem _ hm))
        (fun hm => hh2 (List.mem_cons_of_mem _ hm)) hp1 hp2 heq'
      exact ⟨by rw [hrec.1], hrec.2⟩

/-! ### Claim C9: cache keys determined exactly by host and path -/

/-- Claim C9: the cache key is `url.PathEscape` of host plus path and is a
deterministic function of those two components only (the `cacheKey`
definition takes nothing else; scheme and query never enter).  For
resolved addresses — hosts contain no slash byte, paths are empty or
begin with a slash byte, all bytes are byte-valued — two addresses
agreeing on host and path share the cache key, and two addresses
differing in host or path have distinct cache keys. -/
theorem cacheKey_host_path_determines (host1 path1 host2 path2 : List Nat)
    (hb1 : ∀ x ∈ host1 ++ path1, x < 256) (hb2 : ∀ x ∈ host2 ++ path2, x < 256)
    (hh1 : 47 ∉ host1) (hh2 : 47 ∉ host2)
    (hp1 : path1 = [] ∨ path1.head? = some 47)
    (hp2 : path2 = [] ∨ path2.head? = some 47) :
    (host1 = host2 ∧ path1 = path2 → cacheKey host1 path1 = cacheKey host2 path2) ∧
    (cacheKey host1 path1 = cacheKey host2 path2 → host1 = host2 ∧ path1 = path2) := by
  constructor
  · rintro ⟨rfl, rfl⟩; rfl
  · intro h
    have heq := pathEscape_inj _ _ hb1 hb2 h
    exact hostPath_append_inj host1 path1 host2 path2 hh1 hh2 hp1 hp2 heq

/-- Witness for `cacheKey_host_path_determines` at two concrete addresses
differing in the host byte. -/
theorem cacheKey_host_path_determines_witness :
    (([115] : List Nat) = [116] ∧ ([47] : List Nat) = [47] →
      cacheKey [115] [47] = cacheKey [116] [47]) ∧
    (cacheKey [115] [47] = cacheKey [116] [47] →
      ([115] : List Nat) = [116] ∧ ([47] : List Nat) = [47]) :=
  cacheKey_host_path_determines [115] [47] [116] [47]
    (by decide) (by decide) (by decide) (by decide) (by decide) (by decide)

/-! ### Claim C2: no partial cache entry on download or write failure -/

/-- Claim C2: under a caching mode, when the download or the write of the
body to the temporary file fails before completion, `FilterURL.fetch`
returns that error, the temporary file has been removed, and no file
exists at the final cache-key path as a result of the invocation. -/
theorem fetch_partial_failure_atomic (mode : CacheMode) (env : FetchEnv) (fs : FS)
    (e : GErr) (body : List Nat)
    (hm : mode ≠ CacheMode.CacheNone)
    (hdir : env.cacheDirOk = none)
    (hmiss : fs env.cacheKey = none)
    (htemp : env.tempCreateOk = true)
    (hne : env.tempName ≠ env.cacheKey)
    (hfail : env.getResult = .error e ∨ env.getResult = .ok (body, some e)) :
    (FilterURL.fetch mode env fs).1 = .error e ∧
    (FilterURL.fetch mode env fs).2 env.tempName = none ∧
    (FilterURL.fetch mode env fs).2 env.cacheKey = none := by
  have hknt : ¬ env.cacheKey = env.tempName := fun hq => hne hq.symm
  cases mode with
  | CacheNone => exact absurd rfl hm
  | CacheTemp =>
    rcases hfail with hget | hget <;>
      simp [FilterURL.fetch, hdir, hmiss, htemp, hget, fsUpdate, hknt]
  | CachePerm =>
    rcases hfail with hget | hget <;>
      simp [FilterURL.fetch, hdir, hmiss, htemp, hget, fsUpdate, hknt]
  | CacheCustom =>
    rcases hfail with hget | hget <;>
      simp [FilterURL.fetch, hdir, hmiss, htemp, hget, fsUpdate, hknt]

/-- Witness for `fetch_partial_failure_atomic`: a failing download under
temporary caching leaves neither the temp file nor a cache entry. -/
theorem fetch_partial_failure_atomic_witness :
    (FilterURL.fetch CacheMode.CacheTemp fetchEnvGetFails fs0).1 = .error (GErr.code 1) ∧
    (FilterURL.fetch CacheMode.CacheTemp fetchEnvGetFails fs0).2 fetchEnvGetFails.tempName = none ∧
    (FilterURL.fetch CacheMode.CacheTemp fetchEnvGetFails fs0).2 fetchEnvGetFails.cacheKey = none :=
  fetch_partial_failure_atomic CacheMode.CacheTemp fetchEnvGetFails fs0 (GErr.code 1) []
    (by decide) rfl rfl rfl (by decide) (Or.inl rfl)

/-! ### Claim C3: behavior of cache I/O failures -/

/-- Claim C3, counterexample.  The claim states that under a caching mode
any failing cache I/O step — including temporary-file creation and the
rename into place — fails the fetch with that error, and that a direct
fetch happens only when the cache mode is none.  Under `CacheTemp`, an
invocation whose rename fails nevertheless succeeds (serving the temp
file), and an invocation whose temp-file creation fails performs a direct
un-cached fetch instead of failing. -/
theorem fetch_rename_failure_succeeds_cex :
    fetchEnvRenameFails.renameOk = false ∧
    fetchEnvTempFails.tempCreateOk = false ∧
    (FilterURL.fetch CacheMode.CacheTemp fetchEnvRenameFails fs0).1
      = .ok (FetchRC.cached ("t") [1, 2]) ∧
    (FilterURL.fetch CacheMode.CacheTemp fetchEnvTempFails fs0).1
      = .ok (FetchRC.direct [3] none) :=
  ⟨rfl, rfl, rfl, rfl⟩

/-- Claim C3 (corrected): under a cache mode other than none, failure of
cache-directory creation, of the write of the body to the temporary file,
or of the temp-file sync fails the fetch with that error; failure of
temporary-file creation does not fail the fetch but falls back to a
direct un-cached fetch from the origin; failure of the rename into place
is not an error — the temporary file itself becomes the served cache
result. -/
theorem fetch_cache_io_failure_behavior
    (mode : CacheMode) (fs : FS)
    (envA envB envC envD envE : FetchEnv)
    (eA eB eC : GErr) (bB bC bE : List Nat)
    (hm : mode ≠ CacheMode.CacheNone)
    (hA : envA.cacheDirOk = some eA)
    (hBdir : envB.cacheDirOk = none) (hBmiss : fs envB.cacheKey = none)
    (hBtemp : envB.tempCreateOk = true) (hBget : envB.getResult = .ok (bB, some eB))
    (hCdir : envC.cacheDirOk = none) (hCmiss : fs envC.cacheKey = none)
    (hCtemp : envC.tempCreateOk = true) (hCget : envC.getResult = .ok (bC, none))
    (hCsync : envC.syncErr = some eC)
    (hDdir : envD.cacheDirOk = none) (hDmiss : fs envD.cacheKey = none)
    (hDtemp : envD.tempCreateOk = false)
    (hEdir : envE.cacheDirOk = none) (hEmiss : fs envE.cacheKey = none)
    (hEtemp : envE.tempCreateOk = true) (hEget : envE.getResult = .ok (bE, none))
    (hEsync : envE.syncErr = none) (hEren : envE.renameOk = false) :
    FilterURL.fetch mode envA fs = (.error eA, fs) ∧
    (FilterURL.fetch mode envB fs).1 = .error eB ∧
    (FilterURL.fetch mode envC fs).1 = .error eC ∧
    FilterURL.fetch mode envD fs = directFetch envD fs ∧
    (FilterURL.fetch mode envE fs).1 = .ok (FetchRC.cached envE.tempName bE) := by
  cases mode with
  | CacheNone => exact absurd rfl hm
  | CacheTemp =>
    refine ⟨?_, ?_, ?_, ?_, ?_⟩
    · simp [FilterURL.fetch, hA]
    · simp [FilterURL.fetch, hBdir, hBmiss, hBtemp, hBget]
    · simp [FilterURL.fetch, hCdir, hCmiss, hCtemp, hCget, hCsync]
    · simp [FilterURL.fetch, hDdir, hDmiss, hDtemp]
    · simp [FilterURL.fetch, hEdir, hEmiss, hEtemp, hEget, hEsync, hEren]
  | CachePerm =>
    refine ⟨?_, ?_, ?_, ?_, ?_⟩
    · simp [FilterURL.fetch, hA]
    · simp [FilterURL.fetch, hBdir, hBmiss, hBtemp, hBget]
    · simp [FilterURL.fetch, hCdir, hCmiss, hCtemp, hCget, hCsync]
    · simp [FilterURL.fetch, hDdir, hDmiss, hDtemp]
    · simp [FilterURL.fetch, hEdir, hEmiss, hEtemp, hEget, hEsync, hEren]
  | CacheCustom =>
    refine ⟨?_, ?_, ?_, ?_, ?_⟩
    · simp [FilterURL.fetch, hA]
    · simp [FilterURL.fetch, hBdir, hBmiss, hBtemp, hBget]
    · simp [FilterURL.fetch, hCdir, hCmiss, hCtemp, hCget, hCsync]
    · simp [FilterURL.fetch, hDdir, hDmiss, hDtemp]
    · simp [FilterURL.fetch, hEdir, hEmiss, hEtemp, hEget, hEsync, hEren]

/-- Witness for `fetch_cache_io_failure_behavior` at the concrete
environments. -/
theorem fetch_cache_io_failure_behavior_witness :
    FilterURL.fetch CacheMode.CacheTemp fetchEnvDirFails fs0 = (.error (GErr.code 2), fs0) ∧
    (FilterURL.fetch CacheMode.CacheTemp fetchEnvWriteFails fs0).1 = .error (GErr.code 3) ∧
    (FilterURL.fetch CacheMode.CacheTemp fetchEnvSyncFails fs0).1 = .error (GErr.code 4) ∧
    FilterURL.fetch CacheMode.CacheTemp fetchEnvTempFails fs0 = directFetch fetchEnvTempFails fs0 ∧
    (FilterURL.fetch CacheMode.CacheTemp fetchEnvRenameFails fs0).1
      = .ok (FetchRC.cached fetchEnvRenameFails.tempName [1, 2]) :=
  fetch_cache_io_failure_behavior CacheMode.CacheTemp fs0
    fetchEnvDirFails fetchEnvWriteFails fetchEnvSyncFails fetchEnvTempFails fetchEnvRenameFails
    (GErr.code 2) (GErr.code 3) (GErr.code 4) [5] [6] [1, 2]
    (by decide) rfl rfl rfl rfl rfl rfl rfl rfl rfl rfl rfl rfl rfl rfl rfl rfl rfl rfl rfl

/-! ### Lemmas about the image-sheet scan -/

theorem scanAux_sel_spec (size : Nat) :
    ∀ (items : List ScanItem) (idx : Nat) (buf : List Nat) (acc : Option (Nat × Nat))
      (b : List Nat) (i w : Nat),
      (∀ q : Nat × Nat, acc = some q → q.1 < idx) →
      scanAux size items idx buf acc = .ok (b, i, w) →
      ((acc = some (i, w) ∨ (i, w) ∈ cands size items idx) ∧
       (∀ q : Nat × Nat, acc = some q → q.2 ≤ w ∧ (q.2 = w → i = q.1)) ∧
       (∀ p ∈ cands size items idx, p.2 ≤ w ∧ (p.2 = w → i ≤ p.1))) := by
  intro items
  induction items with
  | nil =>
    intro idx buf acc b i w hlt hok
    cases acc with
    | none => simp [scanAux] at hok
    | some q =>
      obtain ⟨i0, w0⟩ := q
      simp only [scanAux, Except.ok.injEq, Prod.mk.injEq] at hok
      obtain ⟨hb, hi, hw⟩ := hok
      subst hi; subst hw
      refine ⟨Or.inl rfl, ?_, ?_⟩
      · intro q hq
        injection hq with h
        subst h
        exact ⟨le_refl _, fun _ => rfl⟩
      · intro p hp
        simp [cands] at hp
  | cons it rest ih =>
    intro idx buf acc b i w hlt hok
    cases it with
    | junk bytes =>
      simp only [scanAux] at hok
      have hmain := ih idx buf acc b i w hlt hok
      simpa [cands] using hmain
    | img w' h' enc =>
      by_cases hq : h' = size ∧ w' % size = 0
      · cases acc with
        | none =>
          rw [show scanAux size (ScanItem.img w' h' enc :: rest) idx buf none
              = scanAux size rest (idx + 1) enc (some (idx, w')) from by
            simp [scanAux, hq]] at hok
          have hlt' : ∀ q : Nat × Nat, (some (idx, w') : Option (Nat × Nat)) = some q →
              q.1 < idx + 1 := by
            intro q hq'
            injection hq' with h
            subst h
            omega
          obtain ⟨m1, m2, m3⟩ := ih (idx + 1) enc (some (idx, w')) b i w hlt' hok
          have hacc := m2 (idx, w') rfl
          refine ⟨?_, ?_, ?_⟩
          · right
            simp only [cands, if_pos hq, List.singleton_append, List.mem_cons]
            rcases m1 with heq | hmem
            · injection heq with h
              exact Or.inl h.symm
            · exact Or.inr hmem
          · intro q hq'
            simp at hq'
          · intro p hp
            simp only [cands, if_pos hq, List.singleton_append, List.mem_cons] at hp
            rcases hp with rfl | hp
            · exact ⟨hacc.1, fun he => le_of_eq (hacc.2 he)⟩
            · exact m3 p hp
        | some a =>
          obtain ⟨a0, v0⟩ := a
          have ha0 : a0 < idx := hlt (a0, v0) rfl
          by_cases hgt : w' > v0
          · rw [show scanAux size (ScanItem.img w' h' enc :: rest) idx buf (some (a0, v0))
                = scanAux size rest (idx + 1) enc (some (idx, w')) from by
              simp [scanAux, hq, hgt]] at hok
            have hlt' : ∀ q : Nat × Nat, (some (idx, w') : Option (Nat × Nat)) = some q →
                q.1 < idx + 1 := by
              intro q hq'
              injection hq' with h
              subst h
              omega
            obtain ⟨m1, m2, m3⟩ := ih (idx + 1) enc (some (idx, w')) b i w hlt' hok
            have hacc := m2 (idx, w') rfl
            refine ⟨?_, ?_, ?_⟩
            · right
              simp only [cands, if_pos hq, List.singleton_append, List.mem_cons]
              rcases m1 with heq | hmem
              · injection heq with h
                exact Or.inl h.symm
              · exact Or.inr hmem
            · intro q hq'
              injection hq' with h
              subst h
              constructor
              · omega
              · intro hv
                exfalso
                omega
            · intro p hp
              simp only [cands, if_pos hq, List.singleton_append, List.mem_cons] at hp
              rcases hp with rfl | hp
              · exact ⟨hacc.1, fun he => le_of_eq (hacc.2 he)⟩
              · exact m3 p hp
          · rw [show scanAux size (ScanItem.img w' h' enc :: rest) idx buf (some (a0, v0))
                = scanAux size rest (idx + 1) enc (some (a0, v0)) from by
              simp [scanAux, hq, hgt]] at hok
            have hlt' : ∀ q : Nat × Nat, (some (a0, v0) : Option (Nat × Nat)) = some q →
                q.1 < idx + 1 := by
              intro q hq'
              injection hq' with h
              subst h
              omega
            obtain ⟨m1, m2, m3⟩ := ih (idx + 1) enc (some (a0, v0)) b i w hlt' hok
            have hacc := m2 (a0, v0) rfl
            refine ⟨?_, ?_, ?_⟩
            · rcases m1 with heq | hmem
              · exact Or.inl heq
              · right
                simp only [cands, if_pos hq, List.singleton_append, List.mem_cons]
                exact Or.inr hmem
            · intro q hq'
              injection hq' with h
              subst h
              exact hacc
            · intro p hp
              simp only [cands, if_pos hq, List.singleton_append, List.mem_cons] at hp
              rcases hp with rfl | hp
              · constructor
                · omega
                · intro hw'
                  have hv0 : v0 = w := by omega
                  have := hacc.2 hv0
                  omega
              · exact m3 p hp
      · rw [show scanAux size (ScanItem.img w' h' enc :: rest) idx buf acc
            = scanAux size rest (idx + 1) enc acc from by
          simp [scanAux, hq]] at hok
        have hlt' : ∀ q : Nat × Nat, acc = some q → q.1 < idx + 1 := by
          intro q hq'
          have := hlt q hq'
          omega
        obtain ⟨m1, m2, m3⟩ := ih (idx + 1) enc acc b i w hlt' hok
        refine ⟨?_, m2, ?_⟩
        · rcases m1 with heq | hmem
          · exact Or.inl heq
          · right
            simpa [cands, hq] using hmem
        · intro p hp
          rw [show cands size (ScanItem.img w' h' enc :: rest) idx
              = cands size rest (idx + 1) from by simp [cands, hq]] at hp
          exact m3 p hp

/-! ### Claim C4: first-encountered-widest selection -/

/-- Claim C4: whenever the scan succeeds with selection `(i, w)`, the
selection is a qualifying candidate (height equal to the target size,
width a multiple of it), no qualifying candidate anywhere in the stream —
the scan runs to end-of-stream — is wider, and every qualifying candidate
of equal width occurs at the selection's position or later: a strictly
wider later candidate replaces the selection, an equally wide later
candidate never does. -/
theorem iconscan_selects_first_widest (size : Nat) (items : List ScanItem)
    (b : List Nat) (i w : Nat)
    (h : scanAux size items 0 [] none = .ok (b, i, w)) :
    (i, w) ∈ cands size items 0 ∧
    (∀ p ∈ cands size items 0, p.2 ≤ w) ∧
    (∀ p ∈ cands size items 0, p.2 = w → i ≤ p.1) := by
  obtain ⟨m1, -, m3⟩ :=
    scanAux_sel_spec size items 0 [] none b i w (by intro q hq; simp at hq) h
  rcases m1 with heq | hmem
  · simp at heq
  · exact ⟨hmem, fun p hp => (m3 p hp).1, fun p hp => (m3 p hp).2⟩

/-- Witness for `iconscan_selects_first_widest`: for qualifying widths
{16, 32, 16} at target size 16 the scan selects the 32-wide candidate at
position 1, and the characterization holds for it. -/
theorem iconscan_selects_first_widest_witness :
    (1, 32) ∈ cands 16 [ScanItem.img 16 16 [1], ScanItem.img 32 16 [2], ScanItem.img 16 16 [3]] 0 ∧
    (∀ p ∈ cands 16 [ScanItem.img 16 16 [1], ScanItem.img 32 16 [2], ScanItem.img 16 16 [3]] 0,
      p.2 ≤ 32) ∧
    (∀ p ∈ cands 16 [ScanItem.img 16 16 [1], ScanItem.img 32 16 [2], ScanItem.img 16 16 [3]] 0,
      p.2 = 32 → 1 ≤ p.1) :=
  iconscan_selects_first_widest 16
    [ScanItem.img 16 16 [1], ScanItem.img 32 16 [2], ScanItem.img 16 16 [3]] [3] 1 32 rfl

/-! ### Claim C1: bytes exposed after the scan -/

/-- Claim C1, code bug.  The claim (and the spec) says the bytes readable
from the stream are the encoded representation of the selected candidate
even when another embedded image follows it.  In `FilterIconScan.scan`,
`f.buf` is reset at every PNG header and refilled by the tee reader, so
after the loop it holds the bytes of the last decoded candidate, not of
the selected one: with a qualifying 32-wide image (encoding `[1]`)
followed by a qualifying 16-wide image (encoding `[2]`) at target size
16, the selection is candidate 0 of width 32, yet the scan returns — and
`Read` serves — the buffer `[2]`, the bytes of the later, narrower,
non-selected image. -/
theorem iconscan_buffer_holds_last_candidate :
    scanAux 16 [ScanItem.img 32 16 [1], ScanItem.img 16 16 [2]] 0 [] none
      = .ok ([2], 0, 32) ∧
    (FilterIconScan.read ⟨16, [ScanItem.img 32 16 [1], ScanItem.img 16 16 [2]], false, [], none⟩).1
      = .ok [2] ∧
    ([2] : List Nat) ≠ [1] :=
  ⟨rfl, rfl, by decide⟩

/-! ### Claim C10: reading after the buffer is drained -/

/-- Claim C10: when the scan has succeeded (closing the upstream) and the
buffered bytes have been fully consumed, the next `Read` does not return
`io.EOF`: the buffer being empty, it re-runs the scan against the closed
upstream, whose read yields the upstream filter's stored `iofl.Closed`
error; that error is returned and becomes the filter's permanent error
state, so every later read returns it unchanged. -/
theorem iconscan_read_after_drain (size : Nat) (items : List ScanItem)
    (bts : List Nat) (i w : Nat)
    (h : scanAux size items 0 [] none = .ok (bts, i, w)) :
    FilterIconScan.read ⟨size, items, false, [], none⟩
      = (.ok bts, ⟨size, [], true, [], none⟩) ∧
    FilterIconScan.read ⟨size, [], true, [], none⟩
      = (.error GErr.closed, ⟨size, [], true, [], some GErr.closed⟩) ∧
    GErr.closed ≠ GErr.eof ∧
    FilterIconScan.read ⟨size, [], true, [], some GErr.closed⟩
      = (.error GErr.closed, ⟨size, [], true, [], some GErr.closed⟩) := by
  refine ⟨?_, ?_, by simp, ?_⟩
  · simp [FilterIconScan.read, h]
  · simp [FilterIconScan.read]
  · simp [FilterIconScan.read]

/-- Witness for `iconscan_read_after_drain` on a stream with one
qualifying image. -/
theorem iconscan_read_after_drain_witness :
    FilterIconScan.read ⟨16, [ScanItem.img 16 16 [9]], false, [], none⟩
      = (.ok [9], ⟨16, [], true, [], none⟩) ∧
    FilterIconScan.read ⟨16, [], true, [], none⟩
      = (.error GErr.closed, ⟨16, [], true, [], some GErr.closed⟩) ∧
    GErr.closed ≠ GErr.eof ∧
    FilterIconScan.read ⟨16, [], true, [], some GErr.closed⟩
      = (.error GErr.closed, ⟨16, [], true, [], some GErr.closed⟩) :=
  iconscan_read_after_drain 16 [ScanItem.img 16 16 [9]] [9] 0 16 rfl

/-! ### Lemmas about archive member lookup -/

theorem findZipFile_none (nm : String) :
    ∀ files : List (String × List Nat), (∀ f ∈ files, f.1 ≠ nm) →
      findZipFile nm files = none := by
  intro files
  induction files with
  | nil => intro _; rfl
  | cons zf rest ih =>
    intro h
    have h1 : zf.1 ≠ nm := h zf (by simp)
    simp only [findZipFile, if_neg h1]
    exact ih fun f hf => h f (by simp [hf])

theorem findZipFile_first (nm : String) (c : List Nat) :
    ∀ (pre : List (String × List Nat)) (post : List (String × List Nat)),
      (∀ f ∈ pre, f.1 ≠ nm) →
      findZipFile nm (pre ++ (nm, c) :: post) = some (nm, c) := by
  intro pre
  induction pre with
  | nil => intro post _; simp [findZipFile]
  | cons zf rest ih =>
    intro post h
    have h1 : zf.1 ≠ nm := h zf (by simp)
    simp only [List.cons_append, findZipFile, if_neg h1]
    exact ih post fun f hf => h f (by simp [hf])

/-! ### Claim C6: exact member match, first match wins, terminal error -/

/-- Claim C6: the member directory is scanned for an exact name match and
the first match is extracted; requesting a member matching no entry makes
the first read fail with the terminal missing-member error naming the
member and the archive (`"%q not in archive"`), and every subsequent read
returns that same failure. -/
theorem filterZip_member_scan (pre post : List (String × List Nat))
    (nm nmM : String) (c : List Nat)
    (hpre : ∀ f ∈ pre, f.1 ≠ nm)
    (hmiss : ∀ f ∈ pre ++ (nm, c) :: post, f.1 ≠ nmM) :
    unzip (pre ++ (nm, c) :: post) nm = .ok c ∧
    FilterZip.read ⟨nmM, pre ++ (nm, c) :: post, none, none⟩
      = (.error (GErr.msg ("\"" ++ nmM ++ "\" not in archive")),
         ⟨nmM, pre ++ (nm, c) :: post, none,
          some (GErr.msg ("\"" ++ nmM ++ "\" not in archive"))⟩) ∧
    FilterZip.read ⟨nmM, pre ++ (nm, c) :: post, none,
        some (GErr.msg ("\"" ++ nmM ++ "\" not in archive"))⟩
      = (.error (GErr.msg ("\"" ++ nmM ++ "\" not in archive")),
         ⟨nmM, pre ++ (nm, c) :: post, none,
          some (GErr.msg ("\"" ++ nmM ++ "\" not in archive"))⟩) := by
  refine ⟨?_, ?_, ?_⟩
  · simp [unzip, findZipFile_first nm c pre post hpre]
  · simp [FilterZip.read, unzip, findZipFile_none nmM _ hmiss]
  · simp [FilterZip.read]

/-- Witness for `filterZip_member_scan` on the archive
{"a.txt": "hello", "b.txt": "world"} with missing member "c.txt". -/
theorem filterZip_member_scan_witness :
    unzip [(("a.txt"), [104, 101, 108, 108, 111]), (("b.txt"), [119, 111, 114, 108, 100])]
        ("a.txt") = .ok [104, 101, 108, 108, 111] ∧
    FilterZip.read ⟨("c.txt"),
        [(("a.txt"), [104, 101, 108, 108, 111]), (("b.txt"), [119, 111, 114, 108, 100])],
        none, none⟩
      = (.error (GErr.msg ("\"" ++ ("c.txt") ++ "\" not in archive")),
         ⟨("c.txt"),
          [(("a.txt"), [104, 101, 108, 108, 111]), (("b.txt"), [119, 111, 114, 108, 100])],
          none, some (GErr.msg ("\"" ++ ("c.txt") ++ "\" not in archive"))⟩) ∧
    FilterZip.read ⟨("c.txt"),
        [(("a.txt"), [104, 101, 108, 108, 111]), (("b.txt"), [119, 111, 114, 108, 100])],
        none, some (GErr.msg ("\"" ++ ("c.txt") ++ "\" not in archive"))⟩
      = (.error (GErr.msg ("\"" ++ ("c.txt") ++ "\" not in archive")),
         ⟨("c.txt"),
          [(("a.txt"), [104, 101, 108, 108, 111]), (("b.txt"), [119, 111, 114, 108, 100])],
          none, some (GErr.msg ("\"" ++ ("c.txt") ++ "\" not in archive"))⟩) :=
  filterZip_member_scan [] [(("b.txt"), [119, 111, 114, 108, 100])]
    ("a.txt") ("c.txt") [104, 101, 108, 108, 111]
    (by intro f hf; simp at hf) (by decide)

/-! ### Lemmas about the Live dispatcher loop -/

theorem live_all_ok (resolveErr : String → Option GErr)
    (decodeRes : String → Except GErr String) (g : String → String) :
    ∀ chains : List String,
      (∀ c ∈ chains, resolveErr c = none ∧ decodeRes c = .ok (g c)) →
      Client.Live chains resolveErr decodeRes = .ok (chains.map g) := by
  intro chains
  induction chains with
  | nil => intro _; rfl
  | cons ch rest ih =>
    intro h
    have h1 := h ch (by simp)
    have hrec := ih fun c hc => h c (by simp [hc])
    simp [Client.Live, h1.1, h1.2, hrec]

theorem live_first_fail (resolveErr : String → Option GErr)
    (decodeRes : String → Except GErr String) (g : String → String)
    (ch : String) (post : List String) (e : GErr)
    (hf : resolveErr ch = some e ∨ (resolveErr ch = none ∧ decodeRes ch = .error e)) :
    ∀ pre : List String,
      (∀ c ∈ pre, resolveErr c = none ∧ decodeRes c = .ok (g c)) →
      Client.Live (pre ++ ch :: post) resolveErr decodeRes = .error e := by
  intro pre
  induction pre with
  | nil =>
    intro _
    rcases hf with h1 | ⟨h1, h2⟩
    · simp [Client.Live, h1]
    · simp [Client.Live, h1, h2]
  | cons p rest ih =>
    intro h
    have h1 := h p (by simp)
    have hrec := ih fun c hc => h c (by simp [hc])
    simp [Client.Live, h1.1, h1.2, hrec]

/-! ### Claim C7: Live is all-required and fail-fast -/

/-- Claim C7: `Client.Live` resolves and reads each configured chain in
order.  When every chain resolves and decodes, the decoded identifiers
are returned as a list in chain order; the first failing chain — whether
resolution or decoding fails — aborts the whole operation immediately
with that failure and no aggregated result. -/
theorem client_live_fail_fast
    (chains pre post : List String) (ch : String)
    (rOk : String → Option GErr) (dOk : String → Except GErr String) (g : String → String)
    (r2 : String → Option GErr) (d2 : String → Except GErr String) (g2 : String → String)
    (e : GErr)
    (hAll : ∀ c ∈ chains, rOk c = none ∧ dOk c = .ok (g c))
    (hPre : ∀ c ∈ pre, r2 c = none ∧ d2 c = .ok (g2 c))
    (hFail : r2 ch = some e ∨ (r2 ch = none ∧ d2 ch = .error e)) :
    Client.Live chains rOk dOk = .ok (chains.map g) ∧
    Client.Live (pre ++ ch :: post) r2 d2 = .error e :=
  ⟨live_all_ok rOk dOk g chains hAll,
   live_first_fail r2 d2 g2 ch post e hFail pre hPre⟩

/-- Witness for `client_live_fail_fast` with the default Live chain list
and a second configuration whose second chain fails decoding. -/
theorem client_live_fail_fast_witness :
    Client.Live [("Live64"), ("Live")] (fun _ => none)
        (fun c => .ok (c ++ ("-guid"))) = .ok [("Live64-guid"), ("Live-guid")] ∧
    Client.Live [("Live64"), ("Live")] (fun _ => none)
        (fun c => if c = ("Live") then .error (GErr.code 7) else .ok (c ++ ("-guid")))
      = .error (GErr.code 7) :=
  client_live_fail_fast [("Live64"), ("Live")] [("Live64")] [] ("Live")
    (fun _ => none) (fun c => .ok (c ++ ("-guid"))) (fun c => c ++ ("-guid"))
    (fun _ => none)
    (fun c => if c = ("Live") then .error (GErr.code 7) else .ok (c ++ ("-guid")))
    (fun c => c ++ ("-guid")) (GErr.code 7)
    (by intro c hc; exact ⟨rfl, rfl⟩)
    (by
      intro c hc
      simp only [List.mem_singleton] at hc
      subst hc
      exact ⟨rfl, rfl⟩)
    (Or.inr ⟨rfl, rfl⟩)

/-! ### Claim C8: close and read after close or failure -/

/-- Claim C8: for each of the four filters, a successful `Close` stores
the `iofl.Closed` sentinel and returns nil; once any error — the sentinel
or an earlier failure — is stored, every subsequent `Close` returns it
unchanged (no crash, no silent success, no fresh error) and every
subsequent `Read` returns it unchanged. -/
theorem filter_close_read_after_close (e : GErr) (rcr zrr srr : Option GErr) (zo : Bool)
    (mode : CacheMode) (env : FetchEnv) (r0 : Option FetchRC) (fs : FS)
    (pa gu : String) (fr : Option (List Nat))
    (sz : Nat) (items : List ScanItem) (uc : Bool) (bf : List Nat)
    (fn : String) (ar : List (String × List Nat)) (zrs : Option (List Nat)) :
    (FilterURL.close none none = (none, some GErr.closed) ∧
     FilterFile.close none none = (none, some GErr.closed) ∧
     FilterIconScan.close none none = (none, some GErr.closed) ∧
     FilterZip.close none zo none none = (none, some GErr.closed)) ∧
    (FilterURL.close (some e) rcr = (some e, some e) ∧
     FilterFile.close (some e) rcr = (some e, some e) ∧
     FilterIconScan.close (some e) rcr = (some e, some e) ∧
     FilterZip.close (some e) zo zrr srr = (some e, some e)) ∧
    ((FilterURL.read ⟨mode, env, r0, some e⟩ fs).1 = .error e ∧
     (FilterFile.read ⟨pa, gu, fr, some e⟩ fs).1 = .error e ∧
     (FilterIconScan.read ⟨sz, items, uc, bf, some e⟩).1 = .error e ∧
     (FilterZip.read ⟨fn, ar, zrs, some e⟩).1 = .error e) := by
  refine ⟨⟨rfl, rfl, rfl, ?_⟩, ⟨rfl, rfl, rfl, rfl⟩, rfl, rfl, rfl, rfl⟩
  cases zo <;> rfl
